import Mathlib

set_option maxRecDepth 8000

/-!
Shallow embedding of the GPU texture-copy program (src/main.rs of
fralonra/wgpu_texture_copy) and proofs about its row-alignment helper,
destride step, dispatch parameters, and error handling.

Machine integers: the program computes in unsigned 32-bit arithmetic
(`u32`); we embed `u32` values as natural numbers below `2 ^ 32` and make
every wrapping operation explicit with `% 2 ^ 32`.  Indices into host
slices are `usize`; since every index that occurs is bounded by a list
length they are embedded as plain naturals.  A Rust panic (out-of-bounds
slice access, division by zero) is modelled by `Option.none`.
-/

/-- Truncation to unsigned 32-bit range, the wrap of every `u32` operation. -/
def wrap32 (n : ℕ) : ℕ := n % 2 ^ 32

/-- Constant `DATA_PER_PIXEL` from src/main.rs line 6. -/
def DATA_PER_PIXEL : ℕ := 4

/-- Constant `U8_SIZE` from src/main.rs line 7 (`size_of::<u8>()`, i.e. 1). -/
def U8_SIZE : ℕ := 1

/-- Constant `wgpu::COPY_BYTES_PER_ROW_ALIGNMENT`, which is 256. -/
def COPY_BYTES_PER_ROW_ALIGNMENT : ℕ := 256

/-- Embeds `align_up` from src/main.rs lines 9-11:
`(num + align - 1) & !(align - 1)` in wrapping unsigned 32-bit arithmetic.
Wrapping subtraction of 1 is wrapping addition of `2 ^ 32 - 1`, and the
bitwise complement `!x` of a 32-bit value is `x ^^^ (2 ^ 32 - 1)`. -/
def align_up (num align : ℕ) : ℕ :=
  wrap32 (num + align + (2 ^ 32 - 1)) &&& (wrap32 (align + (2 ^ 32 - 1)) ^^^ (2 ^ 32 - 1))

/-- Embeds the inner loop of `trim_image_buffer` (src/main.rs line 237-239):
reads `buffer[base]`, `buffer[base + 1]`, ..., `buffer[base + w - 1]` in
order; an out-of-bounds access (a Rust panic) yields `none`. -/
def readRow (buffer : List ℕ) : ℕ → ℕ → Option (List ℕ)
  | _, 0 => some []
  | base, w + 1 =>
    match buffer.get? base with
    | none => none
    | some b =>
      match readRow buffer (base + 1) w with
      | none => none
      | some rest => some (b :: rest)

/-- Embeds the outer loop of `trim_image_buffer` (src/main.rs line 236-240):
row `i` is read at byte offset `i * alignWidth` and the rows are pushed into
one output vector. -/
def readRows (buffer : List ℕ) (alignWidth width : ℕ) : ℕ → ℕ → Option (List ℕ)
  | _, 0 => some []
  | i, h + 1 =>
    match readRow buffer (i * alignWidth) width with
    | none => none
    | some row =>
      match readRows buffer alignWidth width (i + 1) h with
      | none => none
      | some rest => some (row ++ rest)

/-- Embeds `trim_image_buffer` from src/main.rs lines 231-243.  The row
stride is recovered as `buffer.len() / height` (integer division, a panic
when `height = 0`), and byte `i * align_width + j` is pushed for each
`i < height`, `j < width`.  `none` models the panics of the Rust code. -/
def trim_image_buffer (width height : ℕ) (buffer : List ℕ) : Option (List ℕ) :=
  if height = 0 then none
  else readRows buffer (buffer.length / height) width 0 height

/-- Embeds the stride computation of `compute_and_get_texture`
(src/main.rs lines 20-23): `align_up(width * DATA_PER_PIXEL * U8_SIZE,
COPY_BYTES_PER_ROW_ALIGNMENT) / U8_SIZE` with wrapping `u32` products. -/
def align_width_of (width : ℕ) : ℕ :=
  align_up (wrap32 (wrap32 (width * DATA_PER_PIXEL) * U8_SIZE)) COPY_BYTES_PER_ROW_ALIGNMENT
    / U8_SIZE

/-- The observable layout parameters produced by `compute_and_get_texture`:
the row layout of the `queue.write_texture` upload (src/main.rs lines
73-87), the byte size of the readback buffer (line 154), and the row layout
of the `copy_texture_to_buffer` encoding (lines 159-168). -/
structure DispatchParams where
  uploadBytesPerRow : ℕ
  uploadRowsPerImage : ℕ
  readbackSize : ℕ
  copyBytesPerRow : ℕ
  copyRowsPerImage : ℕ
deriving DecidableEq

/-- Embeds the layout-relevant behaviour of `compute_and_get_texture`
(src/main.rs lines 13-173).  The upload uses `bytes_per_row =
DATA_PER_PIXEL * width`; the readback buffer size is the `u32` product
`align_width * height`; the texture-to-buffer copy uses `bytes_per_row =
align_width` and `rows_per_image = height`. -/
def compute_and_get_texture (width height : ℕ) : DispatchParams :=
  { uploadBytesPerRow := wrap32 (DATA_PER_PIXEL * width)
    uploadRowsPerImage := height
    readbackSize := wrap32 (align_width_of width * height)
    copyBytesPerRow := align_width_of width
    copyRowsPerImage := height }

/-- The two failure kinds of device acquisition (spec section 7). -/
inductive AcquireError where
  | noAdapter
  | deviceRequestFailed
deriving DecidableEq

/-- Embeds `get_device_and_queue` from src/main.rs lines 175-196.  The
environment is abstracted by the adapter enumeration result and the
adapter's response to the device request: `None` from `request_adapter`
becomes the `NoAdapter` bail, an `Err` from `request_device` becomes the
`DeviceRequestFailed` error, and an `Ok` device/queue pair is returned. -/
def get_device_and_queue {α β : Type} (adapterResult : Option α)
    (requestDevice : α → Except String β) : Except AcquireError β :=
  match adapterResult with
  | none => Except.error AcquireError.noAdapter
  | some adapter =>
    match requestDevice adapter with
    | Except.error _ => Except.error AcquireError.deviceRequestFailed
    | Except.ok dq => Except.ok dq

/-- The failure kind of the readback step (spec section 7). -/
inductive ReadbackError where
  | readbackFailed
deriving DecidableEq

/-- The error a failed `map_async` delivers to its callback
(`wgpu::BufferAsyncError`). -/
inductive BufferAsyncError where
  | bufferAsyncError
deriving DecidableEq

/-- Embeds `view_into_buffer` from src/main.rs lines 245-271.  The callback
of `map_async` sends its `Result` of type unit-or-`BufferAsyncError`
through a oneshot channel; `channelResult` is what `receiver.await`
yields: `none` when the channel is cancelled, `some r` when the callback
delivered the map result `r`.  Line 259 matches `if let Ok(_)` on the
channel result only, discarding the inner map result: the `bail!` branch
(`ReadbackFailed`, no unmap) is reached exactly on channel cancellation,
while a delivered map error still enters the success branch, where
`slice.get_mapped_range()` panics on the unmapped buffer (outer `none`).
Only a delivered `Ok` actually exposes the mapped bytes `bufferView`,
which are destrided with `trim_image_buffer (DATA_PER_PIXEL * width)` (a
wrapping `u32` product) before `raw_buffer.unmap()`; the boolean records
whether the unmap was reached, and a panic inside `trim_image_buffer` is
also the outer `none`. -/
def view_into_buffer (width height : ℕ)
    (channelResult : Option (Except BufferAsyncError Unit)) (bufferView : List ℕ) :
    Option (Except ReadbackError (List ℕ) × Bool) :=
  match channelResult with
  | none => some (Except.error ReadbackError.readbackFailed, false)
  | some (Except.error _) => none
  | some (Except.ok _) =>
    match trim_image_buffer (wrap32 (DATA_PER_PIXEL * width)) height bufferView with
    | none => none
    | some buf => some (Except.ok buf, true)

/-! ### Arithmetic characterisation of `align_up` -/

/-- Masking a 32-bit value with the complement of a low-bit mask clears the
low `k` bits: `x &&& !(2 ^ k - 1) = 2 ^ k * (x / 2 ^ k)`. -/
theorem land_compl_mask (x k : ℕ) (hx : x < 2 ^ 32) (hk : k ≤ 32) :
    x &&& ((2 ^ k - 1) ^^^ (2 ^ 32 - 1)) = 2 ^ k * (x / 2 ^ k) := by
  have hshift : 2 ^ k * (x / 2 ^ k) = (x >>> k) <<< k := by
    rw [Nat.shiftRight_eq_div_pow, Nat.shiftLeft_eq, Nat.mul_comm]
  rw [hshift]
  apply Nat.eq_of_testBit_eq
  intro i
  rw [Nat.testBit_land, Nat.testBit_xor, Nat.testBit_two_pow_sub_one,
    Nat.testBit_two_pow_sub_one, Nat.testBit_shiftLeft, Nat.testBit_shiftRight]
  rcases Nat.lt_or_ge i k with h1 | h1
  · have h2 : i < 32 := lt_of_lt_of_le h1 hk
    have h3 : ¬ i ≥ k := by omega
    simp [h1, h2, h3]
  · rcases Nat.lt_or_ge i 32 with h2 | h2
    · have h3 : ¬ i < k := by omega
      have h4 : k + (i - k) = i := by omega
      simp [h2, h3, h1, h4]
    · have h3 : ¬ i < k := by omega
      have h4 : ¬ i < 32 := by omega
      have h5 : k + (i - k) = i := by omega
      have h6 : x.testBit i = false :=
        Nat.testBit_eq_false_of_lt
          (lt_of_lt_of_le hx (Nat.pow_le_pow_right (by norm_num) h2))
      simp [h3, h4, h5, h6]

/-- Closed form of `align_up` at a power-of-two alignment representable in
`u32`: the wrapped value `(n + 2 ^ k - 1) mod 2 ^ 32` rounded down to a
multiple of `2 ^ k`. -/
theorem align_up_pow2 (n k : ℕ) (hk : k ≤ 31) :
    align_up n (2 ^ k) = 2 ^ k * (((n + 2 ^ k + (2 ^ 32 - 1)) % 2 ^ 32) / 2 ^ k) := by
  have hp : (1 : ℕ) ≤ 2 ^ k := Nat.one_le_two_pow
  have hlt : 2 ^ k - 1 < 2 ^ 32 := by
    have : (2 : ℕ) ^ k ≤ 2 ^ 31 := Nat.pow_le_pow_right (by norm_num) hk
    omega
  have hmask : wrap32 (2 ^ k + (2 ^ 32 - 1)) = 2 ^ k - 1 := by
    unfold wrap32
    rw [show 2 ^ k + (2 ^ 32 - 1) = (2 ^ k - 1) + 2 ^ 32 by omega,
      Nat.add_mod_right, Nat.mod_eq_of_lt hlt]
  unfold align_up
  rw [hmask]
  exact land_compl_mask _ k (Nat.mod_lt _ (by norm_num)) (by omega)

/-- When `n + 2 ^ k - 1` does not overflow `u32`, `align_up` computes the
usual ceiling `2 ^ k * ((n + 2 ^ k - 1) / 2 ^ k)`. -/
theorem align_up_eq_ceil (n k : ℕ) (hk : k ≤ 31) (hov : n + 2 ^ k - 1 < 2 ^ 32) :
    align_up n (2 ^ k) = 2 ^ k * ((n + 2 ^ k - 1) / 2 ^ k) := by
  have hp : (1 : ℕ) ≤ 2 ^ k := Nat.one_le_two_pow
  rw [align_up_pow2 n k hk,
    show n + 2 ^ k + (2 ^ 32 - 1) = (n + 2 ^ k - 1) + 2 ^ 32 by omega,
    Nat.add_mod_right, Nat.mod_eq_of_lt hov]

/-- The ceiling `a * ((n + a - 1) / a)` dominates `n`. -/
theorem ceil_ge (n a : ℕ) (ha : 0 < a) : n ≤ a * ((n + a - 1) / a) := by
  have h := Nat.div_add_mod (n + a - 1) a
  have h2 : (n + a - 1) % a < a := Nat.mod_lt _ ha
  omega

/-- The ceiling `a * ((n + a - 1) / a)` is the least multiple of `a`
that dominates `n`. -/
theorem ceil_min (n a m : ℕ) (ha : 0 < a) (hnm : n ≤ m) (hm : m % a = 0) :
    a * ((n + a - 1) / a) ≤ m := by
  obtain ⟨t, rfl⟩ := Nat.dvd_of_mod_eq_zero hm
  have h1 : a * ((n + a - 1) / a) ≤ n + a - 1 := Nat.mul_div_le _ _
  have h2 : a * (t + 1) = a * t + a := by ring
  have h3 : a * ((n + a - 1) / a) < a * (t + 1) := by omega
  exact Nat.mul_le_mul_left a (Nat.lt_succ_iff.mp (Nat.lt_of_mul_lt_mul_left h3))

/-- In the overflow-free regime, `align_up n (2 ^ k)` is the smallest
multiple of `2 ^ k` that is at least `n`. -/
theorem align_up_is_ceil (n k : ℕ) (hk : k ≤ 31) (hov : n + 2 ^ k - 1 < 2 ^ 32) :
    n ≤ align_up n (2 ^ k) ∧ align_up n (2 ^ k) % 2 ^ k = 0 ∧
      ∀ m, n ≤ m → m % 2 ^ k = 0 → align_up n (2 ^ k) ≤ m := by
  rw [align_up_eq_ceil n k hk hov]
  refine ⟨ceil_ge n (2 ^ k) (Nat.two_pow_pos k), Nat.mul_mod_right _ _, ?_⟩
  intro m hnm hm
  exact ceil_min n (2 ^ k) m (Nat.two_pow_pos k) hnm hm

/-- The result of `align_up` at a power-of-two alignment is divisible by
the alignment even when the addition wraps. -/
theorem align_up_mod (n k : ℕ) (hk : k ≤ 31) : align_up n (2 ^ k) % 2 ^ k = 0 := by
  rw [align_up_pow2 n k hk]
  exact Nat.mul_mod_right _ _

/-- In the overflow-free regime, `align_up n (2 ^ k)` exceeds `n` by less
than the alignment. -/
theorem align_up_sub_lt (n k : ℕ) (hk : k ≤ 31) (hov : n + 2 ^ k - 1 < 2 ^ 32) :
    align_up n (2 ^ k) - n < 2 ^ k := by
  have hp : (1 : ℕ) ≤ 2 ^ k := Nat.one_le_two_pow
  have h1 : align_up n (2 ^ k) ≤ n + 2 ^ k - 1 := by
    rw [align_up_eq_ceil n k hk hov]
    exact Nat.mul_div_le _ _
  omega

/-- The `align_up` helper is idempotent at every `u32` power-of-two
alignment, even when the first application wraps. -/
theorem align_up_idem_aux (n k : ℕ) (hk : k ≤ 31) :
    align_up (align_up n (2 ^ k)) (2 ^ k) = align_up n (2 ^ k) := by
  have hp : (1 : ℕ) ≤ 2 ^ k := Nat.one_le_two_pow
  rw [align_up_pow2 n k hk]
  set x := (n + 2 ^ k + (2 ^ 32 - 1)) % 2 ^ 32 with hx
  have hxlt : x < 2 ^ 32 := Nat.mod_lt _ (by norm_num)
  set m := x / 2 ^ k with hm
  have hrx : 2 ^ k * m ≤ x := Nat.mul_div_le _ _
  have hov : 2 ^ k * m + 2 ^ k - 1 < 2 ^ 32 := by
    have hmul : 2 ^ k * m + 2 ^ k = 2 ^ k * (m + 1) := by ring
    have h2 : 2 ^ k * (m + 1) ≤ 2 ^ 32 := by
      have h3 : m + 1 ≤ 2 ^ (32 - k) := by
        have h4 : x < 2 ^ k * 2 ^ (32 - k) := by
          rw [← Nat.pow_add]
          have : k + (32 - k) = 32 := by omega
          rw [this]
          exact hxlt
        have h5 : m < 2 ^ (32 - k) := by
          rw [hm]
          exact Nat.div_lt_of_lt_mul (by rw [Nat.mul_comm] at h4 ⊢; exact h4)
        omega
      calc 2 ^ k * (m + 1) ≤ 2 ^ k * 2 ^ (32 - k) := Nat.mul_le_mul_left _ h3
        _ = 2 ^ 32 := by rw [← Nat.pow_add, show k + (32 - k) = 32 by omega]
    omega
  rw [align_up_eq_ceil _ k hk hov,
    show 2 ^ k * m + 2 ^ k - 1 = 2 ^ k * m + (2 ^ k - 1) by omega,
    Nat.mul_add_div (Nat.two_pow_pos k), Nat.div_eq_of_lt (by omega), Nat.add_zero]

/-! ### The destride loops -/

/-- Whenever `readRow` succeeds it returns exactly `w` bytes. -/
theorem readRow_length (w : ℕ) : ∀ (base : ℕ) (buffer l : List ℕ),
    readRow buffer base w = some l → l.length = w := by
  induction w with
  | zero =>
    intro base buffer l h
    simp only [readRow] at h
    cases h
    rfl
  | succ w ih =>
    intro base buffer l h
    simp only [readRow] at h
    cases hb : buffer.get? base with
    | none => rw [hb] at h; cases h
    | some b =>
      rw [hb] at h
      cases hr : readRow buffer (base + 1) w with
      | none => rw [hr] at h; cases h
      | some rest =>
        rw [hr] at h
        cases h
        simp [ih (base + 1) buffer rest hr]

/-- Whenever `readRows` succeeds it returns exactly `h * w` bytes. -/
theorem readRows_length (h : ℕ) : ∀ (i : ℕ) (buffer : List ℕ) (aw w : ℕ) (l : List ℕ),
    readRows buffer aw w i h = some l → l.length = h * w := by
  induction h with
  | zero =>
    intro i buffer aw w l hl
    simp only [readRows] at hl
    cases hl
    simp
  | succ h ih =>
    intro i buffer aw w l hl
    simp only [readRows] at hl
    cases hrow : readRow buffer (i * aw) w with
    | none => rw [hrow] at hl; cases hl
    | some row =>
      rw [hrow] at hl
      cases hrest : readRows buffer aw w (i + 1) h with
      | none => rw [hrest] at hl; cases hl
      | some rest =>
        rw [hrest] at hl
        cases hl
        have h1 := readRow_length w (i * aw) buffer row hrow
        have h2 := ih (i + 1) buffer aw w rest hrest
        simp [h1, h2]
        ring

/-- If the `w` bytes starting at `base` are in bounds, `readRow` succeeds
and returns exactly those bytes. -/
theorem readRow_spec (w : ℕ) : ∀ (base : ℕ) (buffer : List ℕ),
    base + w ≤ buffer.length →
    ∃ l, readRow buffer base w = some l ∧ l.length = w ∧
      ∀ j, j < w → l.get? j = buffer.get? (base + j) := by
  induction w with
  | zero =>
    intro base buffer _
    exact ⟨[], rfl, rfl, fun j hj => absurd hj (Nat.not_lt_zero j)⟩
  | succ w ih =>
    intro base buffer hb
    have hblt : base < buffer.length := by omega
    have hget : buffer.get? base = some (buffer.get ⟨base, hblt⟩) := List.get?_eq_get hblt
    obtain ⟨rest, h1, h2, h3⟩ := ih (base + 1) buffer (by omega)
    refine ⟨buffer.get ⟨base, hblt⟩ :: rest, ?_, by simp [h2], ?_⟩
    · simp only [readRow, hget, h1]
    · intro j hj
      cases j with
      | zero => simp [hget]
      | succ j =>
        rw [List.get?_cons_succ, show base + (j + 1) = base + 1 + j by omega]
        exact h3 j (by omega)

/-- If every row of the grid is in bounds, `readRows` succeeds, returns
`h * w` bytes, and byte `r * w + j` of the output is byte
`(i + r) * aw + j` of the input. -/
theorem readRows_spec (h : ℕ) : ∀ (i : ℕ) (buffer : List ℕ) (aw w : ℕ),
    (∀ r, r < h → (i + r) * aw + w ≤ buffer.length) →
    ∃ l, readRows buffer aw w i h = some l ∧ l.length = h * w ∧
      ∀ r j, r < h → j < w → l.get? (r * w + j) = buffer.get? ((i + r) * aw + j) := by
  induction h with
  | zero =>
    intro i buffer aw w _
    exact ⟨[], rfl, by simp, fun r j hr _ => absurd hr (Nat.not_lt_zero r)⟩
  | succ h ih =>
    intro i buffer aw w hb
    obtain ⟨row, hrow, hrl, hrg⟩ := readRow_spec w (i * aw) buffer (by
      have := hb 0 (by omega)
      simpa using this)
    obtain ⟨rest, hrest, hrestl, hrestg⟩ := ih (i + 1) buffer aw w (by
      intro r hr
      have := hb (r + 1) (by omega)
      rw [show i + (r + 1) = i + 1 + r by omega] at this
      exact this)
    refine ⟨row ++ rest, ?_, ?_, ?_⟩
    · simp only [readRows, hrow, hrest]
    · simp [hrl, hrestl]
      ring
    · intro r j hr hj
      cases r with
      | zero =>
        simp only [Nat.zero_mul, Nat.zero_add, Nat.add_zero]
        have hjlt : j < row.length := by omega
        rw [List.get?_append hjlt]
        exact hrg j hj
      | succ r =>
        have hidx : (r + 1) * w + j = row.length + (r * w + j) := by
          rw [hrl]
          ring
        rw [hidx, List.get?_append_right (by omega),
          show row.length + (r * w + j) - row.length = r * w + j by omega,
          hrestg r j (by omega) hj,
          show i + 1 + r = i + (r + 1) by omega]

/-! ### Claims about the row-alignment helper -/

/-- C2 counterexample: the claim quantifies over every `u32` input `n`, but
at `n = 2 ^ 32 - 1`, `a = 256` the wrapping addition makes `align_up`
return `0`, which is not a multiple of 256 that is at least `n`. -/
theorem align_up_not_smallest_cex :
    align_up (2 ^ 32 - 1) 256 = 0 ∧ ¬ (2 ^ 32 - 1 ≤ align_up (2 ^ 32 - 1) 256) := by
  decide

/-- C2 (amended): for every `n` and positive power-of-two alignment
`2 ^ k` representable in `u32`, provided `n + 2 ^ k - 1` does not overflow
`u32`, `align_up n (2 ^ k)` is the smallest multiple of `2 ^ k` that is
greater than or equal to `n`; in particular `align_up 12 256 = 256`,
`align_up 256 256 = 256`, `align_up 257 256 = 512` and `align_up 0 256 = 0`. -/
theorem align_up_smallest_multiple (n k : ℕ) (hk : k ≤ 31)
    (hov : n + 2 ^ k - 1 < 2 ^ 32) :
    (n ≤ align_up n (2 ^ k) ∧ align_up n (2 ^ k) % 2 ^ k = 0 ∧
      ∀ m, n ≤ m → m % 2 ^ k = 0 → align_up n (2 ^ k) ≤ m) ∧
    (align_up 12 256 = 256 ∧ align_up 256 256 = 256 ∧
      align_up 257 256 = 512 ∧ align_up 0 256 = 0) :=
  ⟨align_up_is_ceil n k hk hov, by decide⟩

/-- C2 witness: the amended theorem applied at `n = 12`, `k = 8`. -/
theorem align_up_smallest_multiple_witness : 12 ≤ align_up 12 (2 ^ 8) :=
  (align_up_smallest_multiple 12 8 (by norm_num) (by norm_num)).1.1

/-- C3 counterexample: the claim quantifies over every `W ≥ 1`, but at
`W = 2 ^ 30`, `A = 256` the `u32` product `4 * W` wraps to `0` and the
computed stride is `0 < 4 * W`. -/
theorem stride_alignment_cex :
    align_up (4 * 2 ^ 30) 256 = 0 ∧ ¬ (4 * 2 ^ 30 ≤ align_up (4 * 2 ^ 30) 256) := by
  decide

/-- C3 (amended): for every `W ≥ 1` and power-of-two alignment `A = 2 ^ k`
representable in `u32`, provided `4 * W + A - 1` does not overflow `u32`,
the stride `align_up (4 * W) A` satisfies `stride ≥ 4 * W`,
`stride mod A = 0` and `stride - 4 * W < A`. -/
theorem stride_alignment (W k : ℕ) (hW : 1 ≤ W) (hk : k ≤ 31)
    (hov : 4 * W + 2 ^ k - 1 < 2 ^ 32) :
    4 * W ≤ align_up (4 * W) (2 ^ k) ∧
    align_up (4 * W) (2 ^ k) % 2 ^ k = 0 ∧
    align_up (4 * W) (2 ^ k) - 4 * W < 2 ^ k := by
  obtain ⟨h1, h2, _⟩ := align_up_is_ceil (4 * W) k hk hov
  exact ⟨h1, h2, align_up_sub_lt (4 * W) k hk hov⟩

/-- C3 witness: the amended theorem applied at `W = 1`, `k = 8`. -/
theorem stride_alignment_witness :
    4 * 1 ≤ align_up (4 * 1) (2 ^ 8) ∧
    align_up (4 * 1) (2 ^ 8) % 2 ^ 8 = 0 ∧
    align_up (4 * 1) (2 ^ 8) - 4 * 1 < 2 ^ 8 :=
  stride_alignment 1 8 (by norm_num) (by norm_num) (by norm_num)

/-- C8: for every `n` and every positive power-of-two alignment `2 ^ k`
representable in `u32`, `align_up (align_up n (2 ^ k)) (2 ^ k) =
align_up n (2 ^ k)` — idempotence holds even when the inner application
wraps. -/
theorem align_up_idempotent (n k : ℕ) (hk : k ≤ 31) :
    align_up (align_up n (2 ^ k)) (2 ^ k) = align_up n (2 ^ k) :=
  align_up_idem_aux n k hk

/-- C8 witness: idempotence at `n = 12`, `k = 8`. -/
theorem align_up_idempotent_witness :
    align_up (align_up 12 (2 ^ 8)) (2 ^ 8) = align_up 12 (2 ^ 8) :=
  align_up_idempotent 12 8 (by norm_num)

/-- C10: `align_up` works in wrapping unsigned 32-bit arithmetic: its
result is divisible by the power-of-two alignment even under wraparound;
it equals the smallest multiple of the alignment that is at least `n`
under the precondition `n + a - 1 < 2 ^ 32`; and at `n = 2 ^ 32 - 1`,
`a = 256` the wrapped computation yields `0`. -/
theorem align_up_u32_wraparound (n k : ℕ) (hk : k ≤ 31) :
    align_up n (2 ^ k) % 2 ^ k = 0 ∧
    (n + 2 ^ k - 1 < 2 ^ 32 →
      n ≤ align_up n (2 ^ k) ∧
      ∀ m, n ≤ m → m % 2 ^ k = 0 → align_up n (2 ^ k) ≤ m) ∧
    align_up (2 ^ 32 - 1) 256 = 0 := by
  refine ⟨align_up_mod n k hk, ?_, by decide⟩
  intro hov
  obtain ⟨h1, _, h3⟩ := align_up_is_ceil n k hk hov
  exact ⟨h1, h3⟩

/-- C10 witness: the theorem applied at `n = 12`, `k = 8`. -/
theorem align_up_u32_wraparound_witness : align_up 12 (2 ^ 8) % 2 ^ 8 = 0 :=
  (align_up_u32_wraparound 12 8 (by norm_num)).1

/-! ### Claims about the destride step -/

/-- C1 counterexample: at `W = 2 ^ 30 - 1`, `H = 1` the row width
`4 * W = 2 ^ 32 - 4` is a valid `u32`, the stride wraps to `0`, the
readback buffer of length `stride * H` is empty, and `trim_image_buffer`
hits an out-of-bounds access (a panic, `none`) instead of returning an
output. -/
theorem destride_correct_cex :
    trim_image_buffer (4 * (2 ^ 30 - 1)) 1 [] = none ∧
    ([] : List ℕ).length = align_up (4 * (2 ^ 30 - 1)) 256 * 1 := by
  constructor
  · rfl
  · decide

/-- On a readback buffer of exactly `stride * H` bytes with
`stride = align_up (4 * W) 256` and no `u32` overflow, the destride loops
succeed, return `H * (4 * W)` bytes, and map output byte
`i * (4 * W) + j` to readback byte `i * stride + j`. -/
theorem trim_image_buffer_spec (W H : ℕ) (buffer : List ℕ)
    (hW : 1 ≤ W) (hH : 1 ≤ H) (hov : 4 * W + 255 < 2 ^ 32)
    (hlen : buffer.length = align_up (4 * W) 256 * H) :
    ∃ out, trim_image_buffer (4 * W) H buffer = some out ∧
      out.length = H * (4 * W) ∧
      ∀ i j, i < H → j < 4 * W →
        out.get? (i * (4 * W) + j) = buffer.get? (i * align_up (4 * W) 256 + j) := by
  have h256 : (256 : ℕ) = 2 ^ 8 := by norm_num
  have hge : 4 * W ≤ align_up (4 * W) 256 := by
    rw [h256]
    exact (align_up_is_ceil (4 * W) 8 (by norm_num) (by norm_num at *; omega)).1
  have haw : buffer.length / H = align_up (4 * W) 256 := by
    rw [hlen]
    exact Nat.mul_div_cancel _ (by omega)
  set s := align_up (4 * W) 256 with hs
  have hbound : ∀ r, r < H → (0 + r) * s + 4 * W ≤ buffer.length := by
    intro r hr
    simp only [Nat.zero_add]
    have h1 : r * s + s = (r + 1) * s := by ring
    have h2 : (r + 1) * s ≤ H * s := Nat.mul_le_mul_right s (by omega)
    have h3 : H * s = s * H := Nat.mul_comm H s
    rw [hlen]
    omega
  obtain ⟨l, hl, hle, hg⟩ := readRows_spec H 0 buffer s (4 * W) hbound
  refine ⟨l, ?_, hle, ?_⟩
  · unfold trim_image_buffer
    rw [if_neg (by omega), haw, hl]
  · intro i j hi hj
    have := hg i j hi hj
    simpa using this

/-- C1 (amended): for every `W ≥ 1`, `H ≥ 1` with `4 * W + 255 < 2 ^ 32`,
stride `align_up (4 * W) 256`, and readback buffer of length
`stride * H`, the destride step `trim_image_buffer` called with row width
`4 * W` returns an output such that for all `i < H` and `j < 4 * W`,
output byte `i * (4 * W) + j` equals readback byte `i * stride + j`. -/
theorem destride_correct (W H : ℕ) (buffer : List ℕ)
    (hW : 1 ≤ W) (hH : 1 ≤ H) (hov : 4 * W + 255 < 2 ^ 32)
    (hlen : buffer.length = align_up (4 * W) 256 * H) :
    ∃ out, trim_image_buffer (4 * W) H buffer = some out ∧
      ∀ i j, i < H → j < 4 * W →
        out.get? (i * (4 * W) + j) = buffer.get? (i * align_up (4 * W) 256 + j) := by
  obtain ⟨out, hout, _, hg⟩ := trim_image_buffer_spec W H buffer hW hH hov hlen
  exact ⟨out, hout, hg⟩

/-- C1 witness: `W = 1`, `H = 1`, readback buffer `List.range 256`. -/
theorem destride_correct_witness :
    ∃ out, trim_image_buffer (4 * 1) 1 (List.range 256) = some out ∧
      ∀ i j, i < 1 → j < 4 * 1 →
        out.get? (i * (4 * 1) + j) =
          (List.range 256).get? (i * align_up (4 * 1) 256 + j) :=
  destride_correct 1 1 (List.range 256) (by norm_num) (by norm_num)
    (by norm_num) (by simp [List.length_range]; decide)

/-- C4 counterexample: the claim quantifies over every valid `(W, H)`, but
at `W = 2 ^ 30`, `H = 1` the `u32` product `4 * W` wraps to `0`, the
readback buffer of length `stride * H = 0` is empty, and the
readback-and-destride step returns an empty pixel buffer whose length is
not `4 * W * H`. -/
theorem readback_size_cex :
    view_into_buffer (2 ^ 30) 1 (some (Except.ok ())) [] =
      some (Except.ok [], true) ∧
    ([] : List ℕ).length = align_width_of (2 ^ 30) * 1 ∧
    ([] : List ℕ).length ≠ 4 * 2 ^ 30 * 1 := by
  refine ⟨rfl, by decide, by decide⟩

/-- C4 (amended): for every valid input (`W ≥ 1`, `H ≥ 1`) with
`4 * W + 255 < 2 ^ 32` and a readback buffer of length `stride * H`, the
readback-and-destride step returns a pixel buffer of length exactly
`4 * W * H`. -/
theorem readback_size_preservation (W H : ℕ) (buffer : List ℕ)
    (hW : 1 ≤ W) (hH : 1 ≤ H) (hov : 4 * W + 255 < 2 ^ 32)
    (hlen : buffer.length = align_up (4 * W) 256 * H) :
    ∃ out, view_into_buffer W H (some (Except.ok ())) buffer =
        some (Except.ok out, true) ∧
      out.length = 4 * W * H := by
  have hwrap : wrap32 (DATA_PER_PIXEL * W) = 4 * W := by
    show (4 * W) % 2 ^ 32 = 4 * W
    exact Nat.mod_eq_of_lt (by omega)
  obtain ⟨out, htrim, hle, _⟩ := trim_image_buffer_spec W H buffer hW hH hov hlen
  refine ⟨out, ?_, by rw [hle]; ring⟩
  simp only [view_into_buffer, hwrap, htrim]

/-- C4 witness: `W = 1`, `H = 1`, readback buffer of 256 zero bytes. -/
theorem readback_size_preservation_witness :
    ∃ out, view_into_buffer 1 1 (some (Except.ok ())) (List.replicate 256 0) =
        some (Except.ok out, true) ∧
      out.length = 4 * 1 * 1 :=
  readback_size_preservation 1 1 (List.replicate 256 0) (by norm_num)
    (by norm_num) (by norm_num) (by simp [List.length_replicate]; decide)

/-- C9 counterexample: the row mapping of `trim_image_buffer` can agree
with the spec stride even though the buffer length is not exactly
`stride * height` — a 513-byte buffer at `height = 2` still yields rows at
offsets 0 and 256. -/
theorem trim_stride_agreement_cex :
    trim_image_buffer 4 2 (List.range 513) =
      some [0, 1, 2, 3, 256, 257, 258, 259] ∧
    align_up (4 * 1) 256 = 256 ∧ (List.range 513).length ≠ 256 * 2 := by
  refine ⟨rfl, by decide, by simp [List.length_range]⟩

/-- C9 (amended): `trim_image_buffer` derives the row stride as
`buffer.len() / height`; for every `height ≥ 1` and every buffer with
`width ≤ buffer.len() / height`, every index `i * (len / height) + j` it
reads is in bounds, so it never panics under that precondition, and its
row mapping agrees with the spec stride whenever `buffer.len()` is exactly
`stride * height`. -/
theorem trim_no_panic (width height stride : ℕ) (buffer : List ℕ)
    (hH : 1 ≤ height) (hw : width ≤ buffer.length / height) :
    (∃ out, trim_image_buffer width height buffer = some out ∧
      ∀ i j, i < height → j < width →
        out.get? (i * width + j) =
          buffer.get? (i * (buffer.length / height) + j)) ∧
    (buffer.length = stride * height → buffer.length / height = stride) := by
  constructor
  · have hbound : ∀ r, r < height →
        (0 + r) * (buffer.length / height) + width ≤ buffer.length := by
      intro r hr
      simp only [Nat.zero_add]
      have h1 : r * (buffer.length / height) + buffer.length / height =
          (r + 1) * (buffer.length / height) := by ring
      have h2 : (r + 1) * (buffer.length / height) ≤
          height * (buffer.length / height) :=
        Nat.mul_le_mul_right _ (by omega)
      have h3 : height * (buffer.length / height) ≤ buffer.length := by
        rw [Nat.mul_comm]
        exact Nat.div_mul_le_self _ _
      omega
    obtain ⟨l, hl, _, hg⟩ :=
      readRows_spec height 0 buffer (buffer.length / height) width hbound
    refine ⟨l, ?_, ?_⟩
    · unfold trim_image_buffer
      rw [if_neg (by omega), hl]
    · intro i j hi hj
      have := hg i j hi hj
      simpa using this
  · intro hlen
    rw [hlen]
    exact Nat.mul_div_cancel _ (by omega)

/-- C9 witness: `width = 4`, `height = 2`, a 512-byte buffer. -/
theorem trim_no_panic_witness :
    (∃ out, trim_image_buffer 4 2 (List.replicate 512 0) = some out ∧
      ∀ i j, i < 2 → j < 4 →
        out.get? (i * 4 + j) =
          (List.replicate 512 0).get? (i * ((List.replicate 512 0).length / 2) + j)) ∧
    ((List.replicate 512 0).length = 256 * 2 →
      (List.replicate 512 0).length / 2 = 256) :=
  trim_no_panic 4 2 256 (List.replicate 512 0) (by norm_num)
    (by norm_num [List.length_replicate])

/-! ### Claims about the dispatch core and error handling -/

/-- C5 counterexample: the claim quantifies over every `W ≥ 1`, `H ≥ 1`,
but at `W = 1`, `H = 2 ^ 24` the `u32` product `stride * H` wraps to `0`,
so the readback buffer is not created with size `stride * H`. -/
theorem dispatch_params_cex :
    (compute_and_get_texture 1 (2 ^ 24)).readbackSize = 0 ∧
    align_up (4 * 1) 256 * 2 ^ 24 ≠ 0 := by
  refine ⟨by decide, by decide⟩

/-- C5 (amended): for every `W ≥ 1` and `H ≥ 1` such that neither
`4 * W + 255` nor `stride * H` overflows `u32`, the dispatch core uploads
with `bytes_per_row = 4 * W` (unpadded) and `rows_per_image = H`, creates
the readback buffer with size `stride * H` where
`stride = align_up (4 * W) 256`, and encodes the texture-to-buffer copy
with `bytes_per_row = stride` and `rows_per_image = H`. -/
theorem dispatch_params_spec (W H : ℕ) (hW : 1 ≤ W) (hH : 1 ≤ H)
    (hov : 4 * W + 255 < 2 ^ 32) (hsz : align_up (4 * W) 256 * H < 2 ^ 32) :
    (compute_and_get_texture W H).uploadBytesPerRow = 4 * W ∧
    (compute_and_get_texture W H).uploadRowsPerImage = H ∧
    (compute_and_get_texture W H).readbackSize = align_up (4 * W) 256 * H ∧
    (compute_and_get_texture W H).copyBytesPerRow = align_up (4 * W) 256 ∧
    (compute_and_get_texture W H).copyRowsPerImage = H := by
  have haw : align_width_of W = align_up (4 * W) 256 := by
    unfold align_width_of
    rw [show U8_SIZE = 1 from rfl, Nat.mul_one, Nat.div_one]
    congr 1
    show (W * DATA_PER_PIXEL % 2 ^ 32) % 2 ^ 32 = 4 * W
    rw [Nat.mod_mod_of_dvd _ (dvd_refl _),
      show W * DATA_PER_PIXEL = 4 * W from by unfold DATA_PER_PIXEL; ring]
    exact Nat.mod_eq_of_lt (by omega)
  refine ⟨?_, rfl, ?_, haw, rfl⟩
  · show (DATA_PER_PIXEL * W) % 2 ^ 32 = 4 * W
    rw [show DATA_PER_PIXEL * W = 4 * W from by unfold DATA_PER_PIXEL; ring]
    exact Nat.mod_eq_of_lt (by omega)
  · show (align_width_of W * H) % 2 ^ 32 = align_up (4 * W) 256 * H
    rw [haw]
    exact Nat.mod_eq_of_lt hsz

/-- C5 witness: the theorem applied at `W = 1`, `H = 1`. -/
theorem dispatch_params_spec_witness :
    (compute_and_get_texture 1 1).uploadBytesPerRow = 4 * 1 ∧
    (compute_and_get_texture 1 1).uploadRowsPerImage = 1 ∧
    (compute_and_get_texture 1 1).readbackSize = align_up (4 * 1) 256 * 1 ∧
    (compute_and_get_texture 1 1).copyBytesPerRow = align_up (4 * 1) 256 ∧
    (compute_and_get_texture 1 1).copyRowsPerImage = 1 :=
  dispatch_params_spec 1 1 (by norm_num) (by norm_num) (by norm_num) (by decide)

/-- C6: `get_device_and_queue` fails with `NoAdapter` exactly when adapter
enumeration yields none, fails with `DeviceRequestFailed` exactly when the
adapter rejects the device request, and otherwise returns the device and
queue pair. -/
theorem acquire_error_spec {α β : Type} (a : Option α)
    (d : α → Except String β) :
    (get_device_and_queue a d = Except.error AcquireError.noAdapter ↔ a = none) ∧
    (get_device_and_queue a d = Except.error AcquireError.deviceRequestFailed ↔
      ∃ x e, a = some x ∧ d x = Except.error e) ∧
    ∀ x dq, a = some x → d x = Except.ok dq →
      get_device_and_queue a d = Except.ok dq := by
  cases a with
  | none =>
    refine ⟨by simp [get_device_and_queue], by simp [get_device_and_queue], ?_⟩
    intro x dq hx
    cases hx
  | some x0 =>
    cases hd : d x0 with
    | ok dq0 =>
      refine ⟨by simp [get_device_and_queue, hd], ?_, ?_⟩
      · constructor
        · intro hcontra
          simp [get_device_and_queue, hd] at hcontra
        · rintro ⟨x, e, hx, hdx⟩
          injection hx with hx
          subst hx
          rw [hd] at hdx
          cases hdx
      · intro x dq hx hdq
        injection hx with hx
        subst hx
        rw [hd] at hdq
        injection hdq with hdq
        subst hdq
        simp [get_device_and_queue, hd]
    | error e0 =>
      refine ⟨by simp [get_device_and_queue, hd], ?_, ?_⟩
      · constructor
        · intro _
          exact ⟨x0, e0, rfl, hd⟩
        · intro _
          simp [get_device_and_queue, hd]
      · intro x dq hx hdq
        injection hx with hx
        subst hx
        rw [hd] at hdq
        cases hdq

/-- C6 witness: a present adapter whose device request succeeds yields the
device and queue pair. -/
theorem acquire_error_spec_witness :
    get_device_and_queue (some 0)
      (fun _ : ℕ => (Except.ok 1 : Except String ℕ)) = Except.ok 1 :=
  (acquire_error_spec (some 0) (fun _ : ℕ => (Except.ok 1 : Except String ℕ))).2.2
    0 1 rfl rfl

/-- C7 (code bug): the claim (with the spec) says the readback fails with
`ReadbackFailed` exactly when the host mapping does not complete
successfully, but src/main.rs line 259 matches `if let Ok(_)` on the
oneshot channel result only and discards the delivered map result.  When
the mapping completes unsuccessfully — the callback delivers
`Err(BufferAsyncError)`, here at `W = H = 1` with a well-sized 256-byte
buffer — the code enters the success branch and panics in
`get_mapped_range` on the unmapped buffer (`none`): it does not fail with
`ReadbackFailed` for any unmap state `b`. -/
theorem readback_map_error_panics :
    view_into_buffer 1 1 (some (Except.error BufferAsyncError.bufferAsyncError))
      (List.replicate 256 5) = none ∧
    ∀ b, view_into_buffer 1 1 (some (Except.error BufferAsyncError.bufferAsyncError))
        (List.replicate 256 5) ≠
      some (Except.error ReadbackError.readbackFailed, b) := by
  refine ⟨rfl, ?_⟩
  intro b h
  exact Option.noConfusion h
